import Mathlib

/-!
# Verification of the sharepointeasy resilient request/transfer layer

Shallow embedding of the core algorithms of `sharepointeasy`
(`src/sharepointeasy/client.py` and `src/sharepointeasy/async_client.py`):

* size-based upload path selection and the chunked-upload loop
  (`SharePointClient.upload`, `SharePointClient._upload_large`,
  `AsyncSharePointClient._upload_large`, `_upload_large_to_url`);
* the retrying request dispatcher (`SharePointClient._request_with_retry`,
  `AsyncSharePointClient._request`);
* the token cache (`SharePointClient._get_token`,
  `AsyncSharePointClient._get_token`);
* the streaming download loop (`SharePointClient.download`,
  `AsyncSharePointClient.download`);
* drive lookup (`get_drive`) and id-based deletion (`delete_by_id`);
* a small cooperative-scheduler model of the semaphore-bounded batch
  transfers (`AsyncSharePointClient.download_batch` / `upload_batch`).

Machine integers do not overflow in any of the modelled code paths (Python
ints are unbounded), so sizes and offsets are `Nat` and wall-clock times and
delays are `ℚ` (every float arising in the modelled paths is a small exact
value; `ℚ` keeps the arithmetic exact and decidable).
-/

namespace SharepointEasy

/-! ## Upload path selection and chunk partitioning

From `client.py`:

    SIMPLE_UPLOAD_MAX_SIZE = 4 * 1024 * 1024
    UPLOAD_CHUNK_SIZE = 10 * 1024 * 1024

`upload` (client.py lines 510-518, async_client.py lines 386-392):

    if file_size <= self.SIMPLE_UPLOAD_MAX_SIZE:
        return self._upload_simple(...)
    else:
        return self._upload_large(...)

`_upload_large` chunk loop (client.py lines 563-585, identical in
async_client.py lines 434-455 and `_upload_large_to_url`):

    total_size = len(content)
    uploaded = 0
    while uploaded < total_size:
        chunk_start = uploaded
        chunk_end = min(uploaded + self.UPLOAD_CHUNK_SIZE, total_size)
        chunk = content[chunk_start:chunk_end]
        headers = { "Content-Length": str(len(chunk)),
                    "Content-Range": f"bytes {chunk_start}-{chunk_end - 1}/{total_size}" }
        ... client.put(upload_url, headers=headers, content=chunk) ...
        uploaded = chunk_end
-/

def SIMPLE_UPLOAD_MAX_SIZE : Nat := 4 * 1024 * 1024

def UPLOAD_CHUNK_SIZE : Nat := 10 * 1024 * 1024

/-- The two code paths `upload` can take. -/
inductive UploadMethod where
  | simple
  | session
deriving DecidableEq, Repr

/-- The `if file_size <= self.SIMPLE_UPLOAD_MAX_SIZE` dispatch in `upload`. -/
def uploadMethod (fileSize : Nat) : UploadMethod :=
  if fileSize ≤ SIMPLE_UPLOAD_MAX_SIZE then .simple else .session

/-- One unrolling of the `while uploaded < total_size` loop of
`_upload_large`, producing the `(chunk_start, chunk_end)` pairs.
`chunk_end` is exclusive, exactly as in the Python slice
`content[chunk_start:chunk_end]`; the chunk PUT for the pair `(s, e)`
carries `Content-Length: e - s` and `Content-Range: bytes s-(e-1)/total`.

Since `UPLOAD_CHUNK_SIZE > 0`, every iteration advances `uploaded` by at
least one byte, so the loop runs at most `total - uploaded` iterations;
`fuel` is that bound, making the recursion structural.  Any
`fuel ≥ total - uploaded` yields the loop's exact output. -/
def uploadLargeChunksGo (fuel : Nat) (total uploaded : Nat) : List (Nat × Nat) :=
  match fuel with
  | 0 => []
  | fuel + 1 =>
    if uploaded < total then
      (uploaded, min (uploaded + UPLOAD_CHUNK_SIZE) total) ::
        uploadLargeChunksGo fuel total (min (uploaded + UPLOAD_CHUNK_SIZE) total)
    else
      []

/-- The full sequence of `(chunk_start, chunk_end)` pairs sent by
`_upload_large` for a payload of `total` bytes (the loop starts at
`uploaded = 0`). -/
def uploadLargeChunks (total : Nat) : List (Nat × Nat) :=
  uploadLargeChunksGo total total 0

/-- The `(start, end)` pairs of the `Content-Range: bytes start-end/total`
headers sent by `_upload_large` (inclusive `end`, i.e. `chunk_end - 1`). -/
def uploadContentRanges (total : Nat) : List (Nat × Nat) :=
  (uploadLargeChunks total).map (fun p => (p.1, p.2 - 1))

lemma uploadLargeChunksGo_eq_nil {fuel total u : Nat} (h : ¬ u < total) :
    uploadLargeChunksGo fuel total u = [] := by
  cases fuel <;> simp [uploadLargeChunksGo, h]

lemma uploadLargeChunksGo_head {fuel total u : Nat} (hfuel : total - u ≤ fuel)
    (h : u < total) :
    (uploadLargeChunksGo fuel total u).head? =
      some (u, min (u + UPLOAD_CHUNK_SIZE) total) := by
  cases fuel with
  | zero => omega
  | succ fuel => simp [uploadLargeChunksGo, h]

/-- Every chunk `(s, e)` the loop emits satisfies `s < e ≤ total`, has size
at most `UPLOAD_CHUNK_SIZE`, and has size exactly `UPLOAD_CHUNK_SIZE` unless
it is the chunk ending at `total`. -/
lemma uploadLargeChunksGo_mem {fuel : Nat} :
    ∀ {total u : Nat}, ∀ p ∈ uploadLargeChunksGo fuel total u,
      p.1 < p.2 ∧ p.2 ≤ total ∧ p.2 - p.1 ≤ UPLOAD_CHUNK_SIZE ∧
        (p.2 ≠ total → p.2 - p.1 = UPLOAD_CHUNK_SIZE) := by
  have hc : 0 < UPLOAD_CHUNK_SIZE := by decide
  induction fuel with
  | zero => intro total u p hp; simp [uploadLargeChunksGo] at hp
  | succ fuel ih =>
    intro total u p hp
    rw [uploadLargeChunksGo] at hp
    by_cases h : u < total
    · simp only [if_pos h, List.mem_cons] at hp
      rcases hp with rfl | hp
      · dsimp only
        refine ⟨by omega, by omega, by omega, fun hne => by omega⟩
      · exact ih p hp
    · simp only [if_neg h, List.not_mem_nil] at hp

/-- Number of chunk PUTs: `⌈(total - u) / UPLOAD_CHUNK_SIZE⌉`. -/
lemma uploadLargeChunksGo_length {fuel : Nat} :
    ∀ {total u : Nat}, total - u ≤ fuel → u < total →
      (uploadLargeChunksGo fuel total u).length =
        (total - u + UPLOAD_CHUNK_SIZE - 1) / UPLOAD_CHUNK_SIZE := by
  have hc : 0 < UPLOAD_CHUNK_SIZE := by decide
  induction fuel with
  | zero => intro total u hfuel h; omega
  | succ fuel ih =>
    intro total u hfuel h
    rw [uploadLargeChunksGo, if_pos h]
    by_cases hlast : total ≤ u + UPLOAD_CHUNK_SIZE
    · have hmin : min (u + UPLOAD_CHUNK_SIZE) total = total := by omega
      rw [hmin, uploadLargeChunksGo_eq_nil (by omega)]
      simp only [List.length_cons, List.length_nil]
      have hone : (total - u + UPLOAD_CHUNK_SIZE - 1) / UPLOAD_CHUNK_SIZE = 1 :=
        Nat.div_eq_of_lt_le (by omega) (by omega)
      omega
    · have hmin : min (u + UPLOAD_CHUNK_SIZE) total = u + UPLOAD_CHUNK_SIZE := by
        omega
      simp only [hmin, List.length_cons]
      rw [ih (by omega) (by omega)]
      have h1 : total - u + UPLOAD_CHUNK_SIZE - 1 =
          (total - (u + UPLOAD_CHUNK_SIZE) + UPLOAD_CHUNK_SIZE - 1) +
            UPLOAD_CHUNK_SIZE := by omega
      rw [h1, Nat.add_div_right _ hc]

lemma uploadLargeChunksGo_ne_nil {fuel total u : Nat} (hfuel : total - u ≤ fuel)
    (h : u < total) : uploadLargeChunksGo fuel total u ≠ [] := by
  intro hnil
  have := uploadLargeChunksGo_head hfuel h
  rw [hnil] at this
  simp at this

/-- The loop's final chunk ends exactly at `total`, and its size is
`(total - u) % UPLOAD_CHUNK_SIZE` — or a full `UPLOAD_CHUNK_SIZE` when the
remaining payload is an exact multiple of the chunk size. -/
lemma uploadLargeChunksGo_getLast {fuel : Nat} :
    ∀ {total u : Nat}, total - u ≤ fuel → u < total →
      ∃ p, (uploadLargeChunksGo fuel total u).getLast? = some p ∧ p.2 = total ∧
        p.2 - p.1 = (if (total - u) % UPLOAD_CHUNK_SIZE = 0 then UPLOAD_CHUNK_SIZE
          else (total - u) % UPLOAD_CHUNK_SIZE) := by
  have hc : 0 < UPLOAD_CHUNK_SIZE := by decide
  induction fuel with
  | zero => intro total u hfuel h; omega
  | succ fuel ih =>
    intro total u hfuel h
    rw [uploadLargeChunksGo, if_pos h]
    by_cases hlast : total ≤ u + UPLOAD_CHUNK_SIZE
    · have hmin : min (u + UPLOAD_CHUNK_SIZE) total = total := by omega
      rw [hmin, uploadLargeChunksGo_eq_nil (by omega)]
      refine ⟨(u, total), by simp, by simp, ?_⟩
      by_cases heq : total - u = UPLOAD_CHUNK_SIZE
      · rw [heq, Nat.mod_self]
        simp
      · rw [Nat.mod_eq_of_lt (by omega), if_neg (by omega)]
    · have hmin : min (u + UPLOAD_CHUNK_SIZE) total = u + UPLOAD_CHUNK_SIZE := by
        omega
      rw [hmin]
      obtain ⟨p, hp, hpt, hps⟩ :=
        @ih total (u + UPLOAD_CHUNK_SIZE) (by omega) (by omega)
      obtain ⟨b, l, hbl⟩ :=
        List.exists_cons_of_ne_nil
          (@uploadLargeChunksGo_ne_nil fuel total (u + UPLOAD_CHUNK_SIZE)
            (by omega) (by omega))
      refine ⟨p, ?_, hpt, ?_⟩
      · rw [hbl, List.getLast?_cons_cons, ← hbl]
        exact hp
      · have hmod : (total - u) % UPLOAD_CHUNK_SIZE =
            (total - (u + UPLOAD_CHUNK_SIZE)) % UPLOAD_CHUNK_SIZE := by
          have h2 : total - u = (total - (u + UPLOAD_CHUNK_SIZE)) + UPLOAD_CHUNK_SIZE := by
            omega
          rw [h2, Nat.add_mod_right]
        rw [hmod]
        exact hps

/-- Adjacent chunks are contiguous: each chunk's exclusive end is the next
chunk's start (and every chunk is non-empty). -/
lemma uploadLargeChunksGo_chain {fuel : Nat} :
    ∀ {total u : Nat}, total - u ≤ fuel →
      List.Chain' (fun p q => p.1 < p.2 ∧ p.2 = q.1)
        (uploadLargeChunksGo fuel total u) := by
  have hc : 0 < UPLOAD_CHUNK_SIZE := by decide
  induction fuel with
  | zero => intro total u hfuel; simp [uploadLargeChunksGo]
  | succ fuel ih =>
    intro total u hfuel
    rw [uploadLargeChunksGo]
    by_cases h : u < total
    · rw [if_pos h]
      rw [List.chain'_cons']
      refine ⟨?_, ih (by omega)⟩
      intro q hq
      by_cases hm : min (u + UPLOAD_CHUNK_SIZE) total < total
      · rw [uploadLargeChunksGo_head (by omega) hm] at hq
        simp only [Option.mem_def, Option.some.injEq] at hq
        subst hq
        exact ⟨by omega, rfl⟩
      · rw [uploadLargeChunksGo_eq_nil hm] at hq
        simp at hq
    · rw [if_neg h]
      simp

/-- Only the final chunk may have size other than `UPLOAD_CHUNK_SIZE`. -/
lemma uploadLargeChunksGo_dropLast {fuel : Nat} :
    ∀ {total u : Nat}, total - u ≤ fuel →
      ∀ p ∈ (uploadLargeChunksGo fuel total u).dropLast,
        p.2 - p.1 = UPLOAD_CHUNK_SIZE := by
  have hc : 0 < UPLOAD_CHUNK_SIZE := by decide
  induction fuel with
  | zero => intro total u hfuel p hp; simp [uploadLargeChunksGo] at hp
  | succ fuel ih =>
    intro total u hfuel p hp
    rw [uploadLargeChunksGo] at hp
    by_cases h : u < total
    · rw [if_pos h] at hp
      by_cases hlast : total ≤ u + UPLOAD_CHUNK_SIZE
      · have hmin : min (u + UPLOAD_CHUNK_SIZE) total = total := by omega
        rw [hmin, uploadLargeChunksGo_eq_nil (by omega)] at hp
        simp at hp
      · have hmin : min (u + UPLOAD_CHUNK_SIZE) total = u + UPLOAD_CHUNK_SIZE := by
          omega
        rw [hmin,
          List.dropLast_cons_of_ne_nil
            (@uploadLargeChunksGo_ne_nil fuel total (u + UPLOAD_CHUNK_SIZE)
              (by omega) (by omega))] at hp
        rcases List.mem_cons.mp hp with rfl | hp
        · dsimp only
          omega
        · exact ih (by omega) p hp
    · rw [if_neg h] at hp
      simp at hp

/-- C1: `upload` performs the single-shot PUT path iff the payload size `S`
is at most 4 MiB (`4*1024*1024` bytes); otherwise it performs the
session-based chunked path, issuing exactly `⌈S / 10MiB⌉` chunk PUTs, each
non-final chunk of size exactly 10 MiB and the final chunk of size
`S % 10MiB`, or exactly 10 MiB when `S` is a multiple of 10 MiB. -/
theorem c1_upload_path_selection_and_chunk_sizes (S : Nat) :
    (uploadMethod S = .simple ↔ S ≤ 4 * 1024 * 1024) ∧
    (4 * 1024 * 1024 < S →
      (uploadLargeChunks S).length =
          (S + UPLOAD_CHUNK_SIZE - 1) / UPLOAD_CHUNK_SIZE ∧
        (∀ p ∈ (uploadLargeChunks S).dropLast,
          p.2 - p.1 = UPLOAD_CHUNK_SIZE) ∧
        ∃ p, (uploadLargeChunks S).getLast? = some p ∧
          p.2 - p.1 = (if S % UPLOAD_CHUNK_SIZE = 0 then UPLOAD_CHUNK_SIZE
            else S % UPLOAD_CHUNK_SIZE)) := by
  constructor
  · unfold uploadMethod SIMPLE_UPLOAD_MAX_SIZE
    by_cases hS : S ≤ 4 * 1024 * 1024
    · simp [hS]
    · simp [hS]
  · intro hS
    have h0 : 0 < S := by omega
    have hfuel : S - 0 ≤ S := by omega
    refine ⟨?_, ?_, ?_⟩
    · have hlen := uploadLargeChunksGo_length hfuel h0
      simpa [uploadLargeChunks] using hlen
    · intro p hp
      simp only [uploadLargeChunks] at hp
      exact uploadLargeChunksGo_dropLast hfuel p hp
    · obtain ⟨p, hp, hpt, hps⟩ := uploadLargeChunksGo_getLast hfuel h0
      refine ⟨p, ?_, ?_⟩
      · simpa [uploadLargeChunks] using hp
      · simpa using hps

/-- Witness for C1 at the spec's 25 MiB example payload. -/
theorem c1_upload_path_selection_and_chunk_sizes_witness :
    4 * 1024 * 1024 < 26214400 ∧
    ((uploadLargeChunks 26214400).length =
        (26214400 + UPLOAD_CHUNK_SIZE - 1) / UPLOAD_CHUNK_SIZE ∧
      (∀ p ∈ (uploadLargeChunks 26214400).dropLast,
        p.2 - p.1 = UPLOAD_CHUNK_SIZE) ∧
      ∃ p, (uploadLargeChunks 26214400).getLast? = some p ∧
        p.2 - p.1 = (if 26214400 % UPLOAD_CHUNK_SIZE = 0 then UPLOAD_CHUNK_SIZE
          else 26214400 % UPLOAD_CHUNK_SIZE)) :=
  ⟨by decide, (c1_upload_path_selection_and_chunk_sizes 26214400).2 (by decide)⟩

/-- C2: for every chunked upload of `S > 0` bytes the Content-Range headers
are contiguous and non-overlapping — the first chunk starts at byte 0, each
later chunk starts at the previous chunk's inclusive end plus one, the final
chunk's inclusive end is `S - 1`, and no zero-length chunk is ever sent (in
particular when `S` is an exact multiple of 10 MiB there is no trailing
empty chunk). -/
theorem c2_content_ranges_contiguous (S : Nat) (hS : 0 < S) :
    (uploadContentRanges S).head?.map Prod.fst = some 0 ∧
    List.Chain' (fun p q => q.1 = p.2 + 1) (uploadContentRanges S) ∧
    (uploadContentRanges S).getLast?.map Prod.snd = some (S - 1) ∧
    ∀ p ∈ uploadLargeChunks S, 0 < p.2 - p.1 := by
  have hfuel : S - 0 ≤ S := by omega
  refine ⟨?_, ?_, ?_, ?_⟩
  · rw [uploadContentRanges, List.head?_map, uploadLargeChunks,
      uploadLargeChunksGo_head hfuel hS]
    rfl
  · rw [uploadContentRanges, List.chain'_map]
    refine (uploadLargeChunksGo_chain hfuel).imp ?_
    intro p q hpq
    dsimp only
    omega
  · obtain ⟨p, hp, hpt, hps⟩ := uploadLargeChunksGo_getLast hfuel hS
    rw [uploadContentRanges, List.getLast?_map, uploadLargeChunks, hp]
    simp [hpt]
  · intro p hp
    simp only [uploadLargeChunks] at hp
    have := uploadLargeChunksGo_mem p hp
    omega

/-- Witness for C2 at `S = 20 MiB`, an exact multiple of the chunk size. -/
theorem c2_content_ranges_contiguous_witness :
    0 < 20971520 ∧
    ((uploadContentRanges 20971520).head?.map Prod.fst = some 0 ∧
      List.Chain' (fun p q => q.1 = p.2 + 1) (uploadContentRanges 20971520) ∧
      (uploadContentRanges 20971520).getLast?.map Prod.snd = some (20971520 - 1) ∧
      ∀ p ∈ uploadLargeChunks 20971520, 0 < p.2 - p.1) :=
  ⟨by decide, c2_content_ranges_contiguous 20971520 (by decide)⟩

/-! ## Retrying request dispatch

From `client.py` lines 111-144 (`_request_with_retry`; the async
`_request`, async_client.py lines 128-153, runs the identical loop):

    last_exception = None
    for attempt in range(self.max_retries):
        try:
            ... response = client.request(method, url, ...)
            if response.status_code == 429 or response.status_code >= 500:
                retry_after = int(response.headers.get("Retry-After", self.retry_delay))
                time.sleep(retry_after * (2 ** attempt))
                continue
            return response
        except httpx.HTTPError as e:
            last_exception = e
            if attempt < self.max_retries - 1:
                time.sleep(self.retry_delay * (2 ** attempt))
                continue
            raise
    if last_exception:
        raise last_exception
    raise RuntimeError("Falha após todas as tentativas")
-/

/-- An HTTP response as seen by `_request_with_retry`: the status code and
the already-parsed integer value of the `Retry-After` header when that
header is present (`int(...)` of the header string). -/
structure Response where
  status : Nat
  retryAfter : Option Int
deriving DecidableEq, Repr

/-- What one `client.request(...)` call does on a given attempt: produce a
response, or raise an `httpx.HTTPError` (identified by an opaque tag). -/
inductive AttemptOut where
  | resp (r : Response)
  | netErr (e : Nat)
deriving DecidableEq, Repr

/-- How a `_request_with_retry` call terminates. -/
inductive ReqOutcome where
  | returned (r : Response)
  | raisedHttp (e : Nat)
  | raisedRuntime
deriving DecidableEq, Repr

/-- Observable behaviour of one `_request_with_retry` call: its outcome,
the `time.sleep` durations in order, and the number of HTTP attempts. -/
structure RetryRun where
  outcome : ReqOutcome
  sleeps : List ℚ
  attemptsMade : Nat
deriving DecidableEq, Repr

/-- Python `int()` truncation toward zero, applied to
`self.retry_delay` (a float) when the `Retry-After` header is absent. -/
def pyInt (q : ℚ) : Int := q.num.tdiv (q.den : Int)

/-- The body of the `for attempt in range(self.max_retries)` loop of
`_request_with_retry`.  `env attempt` is the HTTP client's behaviour on
that attempt; `remaining` counts loop iterations left (`requestWithRetry`
starts it at `max_retries`, keeping `attempt + remaining = max_retries`);
`lastExc` is the `last_exception` variable.  When `remaining` reaches zero
the loop exits and the code after it raises `last_exception` if set, else
`RuntimeError`. -/
def requestGo (env : Nat → AttemptOut) (maxRetries : Nat) (retryDelay : ℚ) :
    Nat → Nat → Option Nat → RetryRun
  | _, 0, lastExc =>
    { outcome := match lastExc with
        | some e => .raisedHttp e
        | none => .raisedRuntime
      sleeps := []
      attemptsMade := 0 }
  | attempt, remaining + 1, lastExc =>
    match env attempt with
    | .resp r =>
      if r.status = 429 ∨ 500 ≤ r.status then
        let retryAfter : Int := r.retryAfter.getD (pyInt retryDelay)
        let rest := requestGo env maxRetries retryDelay (attempt + 1) remaining lastExc
        { outcome := rest.outcome
          sleeps := (retryAfter : ℚ) * 2 ^ attempt :: rest.sleeps
          attemptsMade := rest.attemptsMade + 1 }
      else
        { outcome := .returned r, sleeps := [], attemptsMade := 1 }
    | .netErr e =>
      if attempt < maxRetries - 1 then
        let rest := requestGo env maxRetries retryDelay (attempt + 1) remaining (some e)
        { outcome := rest.outcome
          sleeps := retryDelay * 2 ^ attempt :: rest.sleeps
          attemptsMade := rest.attemptsMade + 1 }
      else
        { outcome := .raisedHttp e, sleeps := [], attemptsMade := 1 }

/-- One full `_request_with_retry(method, url)` call. -/
def requestWithRetry (env : Nat → AttemptOut) (maxRetries : Nat)
    (retryDelay : ℚ) : RetryRun :=
  requestGo env maxRetries retryDelay 0 maxRetries none

/-- The per-attempt base delay the code actually uses on the 429/5xx path:
the server's `Retry-After` value when the header is present, and
`int(retry_delay)` otherwise — not the maximum of the two. -/
def codeRetryBase (a : AttemptOut) (retryDelay : ℚ) : ℚ :=
  match a with
  | .resp r => ((r.retryAfter.getD (pyInt retryDelay) : Int) : ℚ)
  | .netErr _ => retryDelay

lemma requestGo_all_throttled (env : Nat → AttemptOut) (maxRetries : Nat)
    (retryDelay : ℚ) :
    ∀ remaining attempt lastExc,
      (∀ i, attempt ≤ i → i < attempt + remaining →
        ∃ r, env i = .resp r ∧ (r.status = 429 ∨ 500 ≤ r.status)) →
      requestGo env maxRetries retryDelay attempt remaining lastExc =
        { outcome := match lastExc with
            | some e => .raisedHttp e
            | none => .raisedRuntime
          sleeps := (List.range' attempt remaining).map
            (fun i => codeRetryBase (env i) retryDelay * 2 ^ i)
          attemptsMade := remaining } := by
  intro remaining
  induction remaining with
  | zero => intro attempt lastExc hall; rfl
  | succ remaining ih =>
    intro attempt lastExc hall
    obtain ⟨r, hr, hcond⟩ := hall attempt (le_refl _) (by omega)
    rw [requestGo, hr]
    dsimp only
    rw [if_pos hcond,
      ih (attempt + 1) lastExc (fun i h1 h2 => hall i (by omega) (by omega))]
    simp [List.range'_succ, codeRetryBase, hr]

/-- C3 (amended): when every attempt draws HTTP 429 or a 5xx status, the
transport sleeps `base_i * 2^i` after attempt `i` where `base_i` is the
server-provided Retry-After value when present and `int(retryDelay)`
otherwise (the code never takes the max of the two), makes exactly
`maxRetries` attempts, and on exhaustion raises
`RuntimeError("Falha após todas as tentativas")` — it does not return the
last response. -/
theorem c3_retry_throttled_exhaustion (env : Nat → AttemptOut)
    (maxRetries : Nat) (retryDelay : ℚ)
    (hall : ∀ i, i < maxRetries →
      ∃ r, env i = .resp r ∧ (r.status = 429 ∨ 500 ≤ r.status)) :
    (requestWithRetry env maxRetries retryDelay).outcome = .raisedRuntime ∧
    (requestWithRetry env maxRetries retryDelay).attemptsMade = maxRetries ∧
    (requestWithRetry env maxRetries retryDelay).sleeps =
      (List.range maxRetries).map
        (fun i => codeRetryBase (env i) retryDelay * 2 ^ i) := by
  have h := requestGo_all_throttled env maxRetries retryDelay maxRetries 0 none
    (fun i h1 h2 => hall i (by omega))
  rw [requestWithRetry, h]
  refine ⟨rfl, rfl, ?_⟩
  rw [List.range_eq_range']

/-- Witness for the amended C3: three straight 503 responses with no
Retry-After header, `maxRetries = 3`, `retryDelay = 1`. -/
theorem c3_retry_throttled_exhaustion_witness :
    (∀ i, i < 3 → ∃ r, (fun _ => AttemptOut.resp ⟨503, none⟩) i = .resp r ∧
      (r.status = 429 ∨ 500 ≤ r.status)) ∧
    ((requestWithRetry (fun _ => .resp ⟨503, none⟩) 3 1).outcome = .raisedRuntime ∧
      (requestWithRetry (fun _ => .resp ⟨503, none⟩) 3 1).attemptsMade = 3 ∧
      (requestWithRetry (fun _ => .resp ⟨503, none⟩) 3 1).sleeps =
        (List.range 3).map
          (fun i => codeRetryBase ((fun _ => AttemptOut.resp ⟨503, none⟩) i) 1 * 2 ^ i)) :=
  ⟨fun i _ => ⟨⟨503, none⟩, rfl, Or.inr (by decide)⟩,
    c3_retry_throttled_exhaustion (fun _ => .resp ⟨503, none⟩) 3 1
      (fun i _ => ⟨⟨503, none⟩, rfl, Or.inr (by decide)⟩)⟩

/-- Counterexample to C1's claim C3 as stated: with three 500 responses
carrying `Retry-After: 0`, `maxRetries = 3` and `retryDelay = 1`, the claim
demands sleeps `max(0, 1) * 2^i = [1, 2, 4]` and that the last response be
returned as-is; the code instead sleeps `0 * 2^i = [0, 0, 0]` (it uses the
header value alone, not the max with `retryDelay`) and raises
`RuntimeError` on exhaustion instead of returning the response. -/
theorem c3_counterexample :
    (requestWithRetry (fun _ => .resp ⟨500, some 0⟩) 3 1).outcome =
        .raisedRuntime ∧
    (requestWithRetry (fun _ => .resp ⟨500, some 0⟩) 3 1).attemptsMade = 3 ∧
    (requestWithRetry (fun _ => .resp ⟨500, some 0⟩) 3 1).sleeps = [0, 0, 0] ∧
    (requestWithRetry (fun _ => .resp ⟨500, some 0⟩) 3 1).sleeps ≠
      [max 0 1 * 2 ^ (0 : Nat), max 0 1 * 2 ^ (1 : Nat),
        max 0 1 * 2 ^ (2 : Nat)] ∧
    (requestWithRetry (fun _ => .resp ⟨500, some 0⟩) 3 1).outcome ≠
      .returned ⟨500, some 0⟩ := by
  have hrun : requestWithRetry (fun _ => .resp ⟨500, some 0⟩) 3 1 =
      { outcome := .raisedRuntime, sleeps := [0, 0, 0], attemptsMade := 3 } := by
    simp [requestWithRetry, requestGo, pyInt]
  rw [hrun]
  refine ⟨rfl, rfl, rfl, by norm_num, by simp⟩

/-! ## delete_by_id

From `client.py` lines 1685-1702 (async_client.py lines 979-987 is
identical):

    response = self._request("DELETE", url)
    if response.status_code == 404:
        raise FileNotFoundError(f"Item não encontrado: {item_id}")
    return response.status_code == 204
-/

/-- How a `delete_by_id` call terminates. -/
inductive DeleteOutcome where
  | ret (b : Bool)
  | raisedNotFound
  | raisedHttp (e : Nat)
  | raisedRuntime
deriving DecidableEq, Repr

/-- `delete_by_id`, composed with the retrying transport.  An exception
escaping `_request_with_retry` propagates; a returned response either hits
the explicit 404 check (raising the custom `FileNotFoundError`) or is
turned into the boolean `status_code == 204`. -/
def delete_by_id (env : Nat → AttemptOut) (maxRetries : Nat)
    (retryDelay : ℚ) : DeleteOutcome :=
  match (requestWithRetry env maxRetries retryDelay).outcome with
  | .returned r => if r.status = 404 then .raisedNotFound else .ret (r.status == 204)
  | .raisedHttp e => .raisedHttp e
  | .raisedRuntime => .raisedRuntime

/-- C9 (amended): `delete_by_id` raises the not-found error exactly on a
404 final response; any other final response produces a plain boolean
return `status == 204` — in particular a final status that is neither 204
nor 404 (such as 403, which the transport returns without retrying) yields
`False` with no error surfaced to the caller. -/
theorem c9_delete_by_id_silent_false (env : Nat → AttemptOut)
    (maxRetries : Nat) (retryDelay : ℚ) (r : Response)
    (hret : (requestWithRetry env maxRetries retryDelay).outcome = .returned r) :
    (r.status = 404 → delete_by_id env maxRetries retryDelay = .raisedNotFound) ∧
    (r.status ≠ 404 →
      delete_by_id env maxRetries retryDelay = .ret (r.status == 204)) ∧
    (r.status ≠ 404 → r.status ≠ 204 →
      delete_by_id env maxRetries retryDelay = .ret false) := by
  unfold delete_by_id
  rw [hret]
  dsimp only
  refine ⟨fun h404 => by rw [if_pos h404], fun h404 => by rw [if_neg h404],
    fun h404 h204 => ?_⟩
  rw [if_neg h404]
  simp [h204]

/-- Witness for the amended C9: a single 403 response. -/
theorem c9_delete_by_id_silent_false_witness :
    (requestWithRetry (fun _ => .resp ⟨403, none⟩) 3 1).outcome =
        .returned ⟨403, none⟩ ∧
    ((403 : Nat) ≠ 404 ∧ (403 : Nat) ≠ 204 ∧
      delete_by_id (fun _ => .resp ⟨403, none⟩) 3 1 = .ret false) :=
  ⟨by simp [requestWithRetry, requestGo],
    by decide,
    by decide,
    (c9_delete_by_id_silent_false (fun _ => .resp ⟨403, none⟩) 3 1 ⟨403, none⟩
      (by simp [requestWithRetry, requestGo])).2.2 (by decide) (by decide)⟩

/-- Counterexample to claim C9 as stated: a `delete_by_id` call whose final
response has status 403 — neither success (204) nor not-found (404) —
returns normally with the boolean `False`; no error of any kind is raised,
contradicting "still surfaces an error to the caller". -/
theorem c9_counterexample :
    delete_by_id (fun _ => .resp ⟨403, none⟩) 3 1 = .ret false ∧
    delete_by_id (fun _ => .resp ⟨403, none⟩) 3 1 ≠ .raisedNotFound ∧
    delete_by_id (fun _ => .resp ⟨403, none⟩) 3 1 ≠ .raisedRuntime := by
  have hrun : delete_by_id (fun _ => .resp ⟨403, none⟩) 3 1 = .ret false := by
    simp [delete_by_id, requestWithRetry, requestGo]
  rw [hrun]
  refine ⟨rfl, by simp, by simp⟩

/-! ## Token cache

From `client.py` lines 86-102 (`_get_token`; async_client.py lines 82-96
is identical):

    if self._access_token and time.time() < self._token_expires_at - 300:
        return self._access_token
    app = self._get_app()
    result = app.acquire_token_for_client(scopes=self.SCOPES)
    if "access_token" not in result:
        error = result.get("error_description", result.get("error", "..."))
        raise AuthenticationError(f"Falha ao obter token: {error}")
    self._access_token = result["access_token"]
    self._token_expires_at = time.time() + result.get("expires_in", 3600)
    return self._access_token

The two `time.time()` reads within one call are modelled as the same
instant `now`. -/

/-- The token-cache fields of the client: `self._access_token` (initially
`None`) and `self._token_expires_at` (initially `0`). -/
structure TokenState where
  accessToken : Option String
  tokenExpiresAt : ℚ
deriving DecidableEq, Repr

/-- The result dict of `app.acquire_token_for_client(...)`: the value of
the `"access_token"` key when present, and the value
`result.get("expires_in", 3600)` would read when present. -/
structure ExchangeResult where
  accessToken : Option String
  expiresIn : Option ℚ
deriving DecidableEq, Repr

/-- Python truthiness of `self._access_token`: `None` and the empty string
are falsy. -/
def tokenTruthy : Option String → Bool
  | none => false
  | some t => t != ""

/-- Observable behaviour of one `_get_token()` call: the returned token
(or an `AuthenticationError`), the cache state after the call, and the
number of credential exchanges performed. -/
structure TokenCall where
  result : Except Unit String
  state : TokenState
  exchanges : Nat
deriving Repr

/-- `_get_token`.  `exchange` is what `acquire_token_for_client` would
return if invoked during this call. -/
def getToken (st : TokenState) (now : ℚ) (exchange : ExchangeResult) :
    TokenCall :=
  if tokenTruthy st.accessToken ∧ now < st.tokenExpiresAt - 300 then
    { result := .ok (st.accessToken.getD ""), state := st, exchanges := 0 }
  else
    match exchange.accessToken with
    | none => { result := .error (), state := st, exchanges := 1 }
    | some t =>
      { result := .ok t
        state := { accessToken := some t
                   tokenExpiresAt := now + exchange.expiresIn.getD 3600 }
        exchanges := 1 }

/-- C4: a cached (non-empty) token is returned unchanged, with no
credential exchange, whenever `now < expiresAt - 300`; otherwise exactly
one exchange happens and, on success, the cached token and its expiry are
replaced together from that exchange.  In the spec's scenario
(`expiresAt = now + 400`): any call up to 95 seconds later returns the same
token with no exchange, and a call from 100 seconds on (once the 300-second
margin is crossed) performs exactly one exchange. -/
theorem c4_token_cache_reuse_and_refresh (st : TokenState) (now : ℚ)
    (ex : ExchangeResult) (t : String) :
    (st.accessToken = some t → t ≠ "" → now < st.tokenExpiresAt - 300 →
      getToken st now ex = { result := .ok t, state := st, exchanges := 0 }) ∧
    (¬ (tokenTruthy st.accessToken ∧ now < st.tokenExpiresAt - 300) →
      (getToken st now ex).exchanges = 1 ∧
      ∀ t2, ex.accessToken = some t2 →
        getToken st now ex =
          { result := .ok t2
            state := { accessToken := some t2
                       tokenExpiresAt := now + ex.expiresIn.getD 3600 }
            exchanges := 1 }) ∧
    (t ≠ "" →
      (∀ d : ℚ, 0 ≤ d → d ≤ 95 →
        getToken ⟨some t, now + 400⟩ (now + d) ex =
          { result := .ok t, state := ⟨some t, now + 400⟩, exchanges := 0 }) ∧
      ∀ d : ℚ, 100 ≤ d →
        (getToken ⟨some t, now + 400⟩ (now + d) ex).exchanges = 1) := by
  have truthy_of : ∀ s : String, s ≠ "" → tokenTruthy (some s) = true := by
    intro s hs
    simp [tokenTruthy, hs]
  refine ⟨?_, ?_, ?_⟩
  · intro hsome ht hnow
    rw [getToken, if_pos ⟨by rw [hsome]; exact truthy_of t ht, hnow⟩, hsome]
    rfl
  · intro hcond
    rw [getToken, if_neg hcond]
    constructor
    · cases hx : ex.accessToken <;> simp [hx]
    · intro t2 ht2
      rw [ht2]
  · intro ht
    constructor
    · intro d hd0 hd95
      have hlt : now + d < (⟨some t, now + 400⟩ : TokenState).tokenExpiresAt - 300 := by
        dsimp only
        linarith
      rw [getToken, if_pos ⟨truthy_of t ht, hlt⟩]
      rfl
    · intro d hd100
      have hge : ¬ (tokenTruthy (some t) ∧
          now + d < (⟨some t, now + 400⟩ : TokenState).tokenExpiresAt - 300) := by
        rintro ⟨-, hlt⟩
        dsimp only at hlt
        linarith
      rw [getToken, if_neg hge]
      cases hx : ex.accessToken <;> simp [hx]

/-- Witness for C4 at the spec's scenario: token "tok" cached with
`expiresAt = now + 400` at `now = 0`; a call at `t = 95` reuses it, a call
at `t = 100` performs exactly one exchange. -/
theorem c4_token_cache_reuse_and_refresh_witness :
    ("tok" : String) ≠ "" ∧ (0 : ℚ) ≤ 95 ∧ (95 : ℚ) ≤ 95 ∧ (100 : ℚ) ≤ 100 ∧
    getToken ⟨some "tok", 0 + 400⟩ (0 + 95) ⟨some "new", some 3600⟩ =
      { result := .ok "tok", state := ⟨some "tok", 0 + 400⟩, exchanges := 0 } ∧
    (getToken ⟨some "tok", 0 + 400⟩ (0 + 100) ⟨some "new", some 3600⟩).exchanges
      = 1 :=
  ⟨by decide, by norm_num, by norm_num, by norm_num,
    (((c4_token_cache_reuse_and_refresh ⟨some "tok", 0 + 400⟩ 0
      ⟨some "new", some 3600⟩ "tok").2.2 (by decide)).1 95 (by norm_num)
      (by norm_num)),
    (((c4_token_cache_reuse_and_refresh ⟨some "tok", 0 + 400⟩ 0
      ⟨some "new", some 3600⟩ "tok").2.2 (by decide)).2 100 (by norm_num))⟩

/-! ## Streaming download

From `client.py` lines 408-434 (`download`; async_client.py lines 285-319
is identical):

    try:
        ... client.stream("GET", url, ...) as response:
            if response.status_code == 404:
                raise FileNotFoundError(f"Arquivo não encontrado: {file_path}")
            response.raise_for_status()
            ...
            total_size = int(response.headers.get("content-length", 0))
            downloaded = 0
            ... for chunk in response.iter_bytes(chunk_size=8192):
                    f.write(chunk)
                    downloaded += len(chunk)
                    if progress_callback and total_size:
                        progress_callback(downloaded, total_size)
    except httpx.HTTPError as e:
        raise DownloadError(f"Erro ao baixar arquivo: {e}")

Per `exceptions.py`, the custom `FileNotFoundError` subclasses
`SharePointError`, which subclasses `Exception` — it is not an
`httpx.HTTPError`, so the `except httpx.HTTPError` clause does not catch
it and it propagates unwrapped.  `response.raise_for_status()` raises
`httpx.HTTPStatusError` (a subclass of `httpx.HTTPError`) for every final
non-2xx status, which the except clause wraps into `DownloadError`. -/

/-- A download response: final status, the `content-length` header when
present (`int(headers.get("content-length", 0))` reads 0 when absent), and
the byte counts of the chunks `iter_bytes(chunk_size=8192)` yields (each
chunk is non-empty and at most 8192 bytes). -/
structure DownloadResp where
  status : Nat
  contentLength : Option Nat
  chunks : List Nat
deriving DecidableEq, Repr

/-- The `for chunk in response.iter_bytes(...)` loop: the list of
`(downloaded, total_size)` arguments passed to `progress_callback`.
`hasCb` is whether a callback was provided; the guard is
`if progress_callback and total_size:` (a zero `total_size` is falsy). -/
def iterCallbacks (hasCb : Bool) (total : Nat) :
    Nat → List Nat → List (Nat × Nat)
  | _, [] => []
  | downloaded, c :: cs =>
    let d := downloaded + c
    if hasCb ∧ total ≠ 0 then (d, total) :: iterCallbacks hasCb total d cs
    else iterCallbacks hasCb total d cs

/-- What the `try` body of `download` does. -/
inductive DlBody where
  | raisedNotFound
  | raisedStatus
  | completed (callbacks : List (Nat × Nat))
deriving DecidableEq, Repr

def downloadBody (resp : DownloadResp) (hasCb : Bool) : DlBody :=
  if resp.status = 404 then .raisedNotFound
  else if ¬ (200 ≤ resp.status ∧ resp.status < 300) then .raisedStatus
  else .completed (iterCallbacks hasCb (resp.contentLength.getD 0) 0 resp.chunks)

/-- How a `download` call terminates. -/
inductive DlOutcome where
  | raisedNotFound
  | raisedDownloadError
  | success (callbacks : List (Nat × Nat))
deriving DecidableEq, Repr

/-- `download`, with the `except httpx.HTTPError` clause applied to the
body's outcome: only the httpx error is caught and wrapped into
`DownloadError`; the custom `FileNotFoundError` propagates untouched. -/
def download (resp : DownloadResp) (hasCb : Bool) : DlOutcome :=
  match downloadBody resp hasCb with
  | .raisedNotFound => .raisedNotFound
  | .raisedStatus => .raisedDownloadError
  | .completed cbs => .success cbs

lemma iterCallbacks_total_zero (hasCb : Bool) :
    ∀ (cs : List Nat) (d : Nat), iterCallbacks hasCb 0 d cs = [] := by
  intro cs
  induction cs with
  | nil => intro d; rfl
  | cons c cs ih =>
    intro d
    rw [iterCallbacks]
    simp only [ne_eq, not_true_eq_false, and_false, if_false]
    exact ih (d + c)

lemma iterCallbacks_length {total : Nat} (ht : total ≠ 0) :
    ∀ (cs : List Nat) (d : Nat),
      (iterCallbacks true total d cs).length = cs.length := by
  intro cs
  induction cs with
  | nil => intro d; rfl
  | cons c cs ih =>
    intro d
    rw [iterCallbacks, if_pos ⟨rfl, ht⟩]
    simp [ih]

lemma iterCallbacks_head {total : Nat} (ht : total ≠ 0) (c : Nat)
    (cs : List Nat) (d : Nat) :
    (iterCallbacks true total d (c :: cs)).head? = some (d + c, total) := by
  rw [iterCallbacks, if_pos ⟨rfl, ht⟩]
  rfl

/-- With every chunk non-empty, the first components of the reported
callbacks are strictly increasing. -/
lemma iterCallbacks_chain {total : Nat} (ht : total ≠ 0) :
    ∀ (cs : List Nat) (d : Nat), (∀ c ∈ cs, 0 < c) →
      List.Chain' (fun p q => p.1 < q.1) (iterCallbacks true total d cs) := by
  intro cs
  induction cs with
  | nil => intro d hpos; simp [iterCallbacks]
  | cons c cs ih =>
    intro d hpos
    rw [iterCallbacks, if_pos ⟨rfl, ht⟩]
    rw [List.chain'_cons']
    refine ⟨?_, ih (d + c) (fun x hx => hpos x (List.mem_cons_of_mem c hx))⟩
    intro q hq
    cases cs with
    | nil => simp [iterCallbacks] at hq
    | cons c2 cs2 =>
      rw [iterCallbacks_head ht] at hq
      simp only [Option.mem_def, Option.some.injEq] at hq
      subst hq
      have : 0 < c2 := hpos c2 (by simp)
      dsimp only
      omega

lemma iterCallbacks_getLast {total : Nat} (ht : total ≠ 0) :
    ∀ (cs : List Nat) (d : Nat), cs ≠ [] →
      (iterCallbacks true total d cs).getLast? = some (d + cs.sum, total) := by
  intro cs
  induction cs with
  | nil => intro d h; exact absurd rfl h
  | cons c cs ih =>
    intro d h
    rw [iterCallbacks, if_pos ⟨rfl, ht⟩]
    cases hcs : cs with
    | nil =>
      subst hcs
      simp [iterCallbacks]
    | cons c2 cs2 =>
      have hne : cs ≠ [] := by rw [hcs]; simp
      rw [← hcs]
      have htail := ih (d + c) hne
      have htail_ne : iterCallbacks true total (d + c) cs ≠ [] := by
        intro hnil
        rw [hnil] at htail
        simp at htail
      obtain ⟨b, l, hbl⟩ := List.exists_cons_of_ne_nil htail_ne
      rw [hbl, List.getLast?_cons_cons, ← hbl, htail]
      simp only [List.sum_cons, Option.some.injEq, Prod.mk.injEq]
      exact ⟨by omega, trivial⟩

/-- C7: on a 2xx download, an absent or zero `Content-Length` suppresses
every progress callback while the download still succeeds; when
`Content-Length` is present and equals the body length (and is non-zero),
a provided callback fires once per received chunk with strictly increasing
first argument, the final invocation reporting `(totalBytes, totalBytes)`. -/
theorem c7_download_progress_callbacks (resp : DownloadResp)
    (h2xx : 200 ≤ resp.status ∧ resp.status < 300) :
    (∀ hasCb, resp.contentLength.getD 0 = 0 →
      download resp hasCb = .success []) ∧
    (∀ total, resp.contentLength = some total → total = resp.chunks.sum →
      0 < total → (∀ c ∈ resp.chunks, 0 < c) →
      ∃ cbs, download resp true = .success cbs ∧
        cbs.length = resp.chunks.length ∧
        List.Chain' (fun p q => p.1 < q.1) cbs ∧
        cbs.getLast? = some (total, total)) := by
  have h404 : ¬ resp.status = 404 := by omega
  have hbody : ∀ hasCb, downloadBody resp hasCb =
      .completed (iterCallbacks hasCb (resp.contentLength.getD 0) 0 resp.chunks) := by
    intro hasCb
    rw [downloadBody, if_neg h404, if_neg (not_not_intro h2xx)]
  constructor
  · intro hasCb h0
    rw [download, hbody hasCb]
    dsimp only
    rw [h0, iterCallbacks_total_zero hasCb resp.chunks 0]
  · intro total htot hsum hpos hcpos
    have hne : resp.chunks ≠ [] := by
      intro hnil
      rw [hnil] at hsum
      simp at hsum
      omega
    refine ⟨iterCallbacks true total 0 resp.chunks, ?_, ?_, ?_, ?_⟩
    · rw [download, hbody true]
      dsimp only
      rw [htot]
      rfl
    · exact iterCallbacks_length (by omega) resp.chunks 0
    · exact iterCallbacks_chain (by omega) resp.chunks 0 hcpos
    · rw [iterCallbacks_getLast (by omega) resp.chunks 0 hne]
      simp [hsum]

set_option maxRecDepth 8000 in
/-- Witness for C7 at the spec's scenario: a 1 MiB body
(`Content-Length: 1048576`) read in 128 chunks of 8 KiB produces exactly
128 callbacks, strictly increasing, ending at `(1048576, 1048576)`. -/
theorem c7_download_progress_callbacks_witness :
    (200 ≤ (200 : Nat) ∧ (200 : Nat) < 300) ∧
    (1048576 : Nat) = (List.replicate 128 8192).sum ∧
    (∃ cbs,
      download ⟨200, some 1048576, List.replicate 128 8192⟩ true =
        .success cbs ∧
      cbs.length = (List.replicate 128 (8192 : Nat)).length ∧
      List.Chain' (fun p q => p.1 < q.1) cbs ∧
      cbs.getLast? = some (1048576, 1048576)) :=
  ⟨by decide, by decide,
    (c7_download_progress_callbacks ⟨200, some 1048576, List.replicate 128 8192⟩
      (by decide)).2 1048576 rfl (by decide) (by decide) (by decide)⟩

/-- C8: a 404 download response raises the not-found error
(`FileNotFoundError`), every other non-2xx status raises the generic
`DownloadError`, and the not-found error is never wrapped into the generic
one (`FileNotFoundError` is not an `httpx.HTTPError`, so the wrapping
`except` clause does not catch it). -/
theorem c8_download_not_found_distinct (resp : DownloadResp) (hasCb : Bool) :
    (resp.status = 404 → download resp hasCb = .raisedNotFound) ∧
    (resp.status ≠ 404 → ¬ (200 ≤ resp.status ∧ resp.status < 300) →
      download resp hasCb = .raisedDownloadError) ∧
    (resp.status = 404 → download resp hasCb ≠ .raisedDownloadError) := by
  refine ⟨?_, ?_, ?_⟩
  · intro h404
    rw [download, downloadBody, if_pos h404]
  · intro h404 hstat
    rw [download, downloadBody, if_neg h404, if_pos hstat]
  · intro h404
    rw [download, downloadBody, if_pos h404]
    simp

/-- Witness for C8: a 404 response raises not-found (and not the generic
error); a 500 response raises the generic download error. -/
theorem c8_download_not_found_distinct_witness :
    ((404 : Nat) = 404 ∧
      download ⟨404, none, []⟩ false = .raisedNotFound) ∧
    ((500 : Nat) ≠ 404 ∧ ¬ (200 ≤ (500 : Nat) ∧ (500 : Nat) < 300) ∧
      download ⟨500, none, []⟩ false = .raisedDownloadError) ∧
    download ⟨404, none, []⟩ false ≠ .raisedDownloadError :=
  ⟨⟨rfl, (c8_download_not_found_distinct ⟨404, none, []⟩ false).1 rfl⟩,
    ⟨by decide, by decide,
      (c8_download_not_found_distinct ⟨500, none, []⟩ false).2.1 (by decide)
        (by decide)⟩,
    (c8_download_not_found_distinct ⟨404, none, []⟩ false).2.2 rfl⟩

/-! ## get_drive

From `client.py` lines 229-254 (`get_drive`; async_client.py lines 196-208
is identical):

    drives = self.list_drives(site_id)
    for drive in drives:
        name = drive.get("name", "").lower()
        if drive_name.lower() in name:
            return drive
    # Se não encontrou pelo nome, retorna o primeiro
    if drives:
        return drives[0]
    raise DriveNotFoundError(f"Nenhum drive encontrado no site {site_id}")
-/

/-- A drive from the drives listing.  Only the `name` field matters to
`get_drive` (read as `drive.get("name", "")`); `tag` stands for the rest of
the drive's metadata, keeping same-named drives distinguishable. -/
structure Drive where
  name : Option String
  tag : Nat
deriving DecidableEq, Repr

/-- `needle` is a prefix of `hay` (character lists). -/
def charsPrefixOf : List Char → List Char → Bool
  | [], _ => true
  | _ :: _, [] => false
  | a :: as, b :: bs => a == b && charsPrefixOf as bs

/-- Python's `in` on strings: substring containment (the empty needle is
contained in every string). -/
def charsContain (needle : List Char) : List Char → Bool
  | [] => needle.isEmpty
  | b :: bs => charsPrefixOf needle (b :: bs) || charsContain needle bs

/-- `s.lower()` as a character list (ASCII lowering, which is what the
drive names here exercise). -/
def pyLower (s : String) : List Char := s.toList.map Char.toLower

/-- The loop test `drive_name.lower() in drive.get("name", "").lower()`. -/
def driveMatches (driveName : String) (d : Drive) : Bool :=
  charsContain (pyLower driveName) (pyLower (d.name.getD ""))

/-- `get_drive`: first name match wins; with no match the FIRST drive of a
non-empty listing is returned; `DriveNotFoundError` only for an empty
listing. -/
def get_drive (drives : List Drive) (driveName : String) : Except Unit Drive :=
  match drives.find? (fun d => driveMatches driveName d) with
  | some d => .ok d
  | none =>
    match drives with
    | d :: _ => .ok d
    | [] => .error ()

/-- C10: when no drive name matches (case-insensitive substring test),
`get_drive` on a non-empty listing returns the first drive rather than
raising, and the drive-not-found error occurs exactly when the site has
zero drives. -/
theorem c10_get_drive_fallback_to_first (drives : List Drive)
    (driveName : String) :
    (drives ≠ [] → (∀ d ∈ drives, driveMatches driveName d = false) →
      ∃ d0, drives.head? = some d0 ∧
        get_drive drives driveName = .ok d0) ∧
    (get_drive drives driveName = .error () ↔ drives = []) := by
  constructor
  · intro hne hnomatch
    obtain ⟨d0, tl, rfl⟩ := List.exists_cons_of_ne_nil hne
    refine ⟨d0, rfl, ?_⟩
    have hfind : (d0 :: tl).find? (fun d => driveMatches driveName d) = none :=
      List.find?_eq_none.mpr (fun x hx => by simp [hnomatch x hx])
    rw [get_drive, hfind]
  · constructor
    · intro herr
      cases hdrives : drives with
      | nil => rfl
      | cons d0 tl =>
        rw [hdrives, get_drive] at herr
        cases hfind : (d0 :: tl).find? (fun d => driveMatches driveName d) with
        | some d => rw [hfind] at herr; simp at herr
        | none => rw [hfind] at herr; simp at herr
    · intro hnil
      rw [hnil]
      rfl

/-- Witness for C10: a two-drive listing with no name matching "zzz" falls
back to the first drive; the empty listing is the error case. -/
theorem c10_get_drive_fallback_to_first_witness :
    ([⟨some "Documents", 0⟩, ⟨some "SiteAssets", 1⟩] : List Drive) ≠ [] ∧
    (∀ d ∈ ([⟨some "Documents", 0⟩, ⟨some "SiteAssets", 1⟩] : List Drive),
      driveMatches "zzz" d = false) ∧
    (∃ d0,
      ([⟨some "Documents", 0⟩, ⟨some "SiteAssets", 1⟩] : List Drive).head? =
        some d0 ∧
      get_drive [⟨some "Documents", 0⟩, ⟨some "SiteAssets", 1⟩] "zzz" =
        .ok d0) ∧
    (get_drive [] "zzz" = .error () ↔ ([] : List Drive) = []) :=
  ⟨by decide, by decide,
    (c10_get_drive_fallback_to_first
      [⟨some "Documents", 0⟩, ⟨some "SiteAssets", 1⟩] "zzz").1
      (by decide) (by decide),
    (c10_get_drive_fallback_to_first [] "zzz").2⟩

/-! ## Batch transfers: semaphore-bounded cooperative scheduling

From `async_client.py`, `download_batch` (lines 321-367) and
`upload_batch` (lines 457-495):

    semaphore = asyncio.Semaphore(max_concurrent)
    async def download_one(file):
        async with semaphore:
            ... awaited I/O for this unit ...
    tasks = [download_one(f) for f in files]
    downloaded = await asyncio.gather(*tasks)

Each unit's entire body — all of its I/O — sits inside
`async with semaphore:`, so a unit performs in-flight I/O exactly while it
holds a semaphore permit.  `asyncio.gather` is called WITHOUT
`return_exceptions=True`, so the awaiting batch coroutine is resumed with
the first exception as soon as the failing task settles; the sibling tasks
are not cancelled by `gather` and keep running on the event loop.

The model is a deterministic cooperative scheduler over the batch's tasks:
a FIFO ready queue (asyncio schedules resumed tasks first-in first-out), a
counting semaphore with a FIFO waiter queue, and one scheduler step that
runs the front task to its next await point.  Releasing the semaphore wakes
the first waiter, which re-runs its acquire when scheduled. -/

/-- One transfer unit of a batch: how many awaited I/O steps its body
performs while holding the semaphore, and whether it ends by raising. -/
structure TransferUnit where
  ioSteps : Nat
  fails : Bool
deriving DecidableEq, Repr

/-- Where one unit's task stands: not yet past `semaphore.acquire`, parked
in the semaphore's waiter queue, holding a permit with `rem` awaited I/O
steps left, or finished (`ok = false` means it raised). -/
inductive TaskPhase where
  | toAcquire (ioSteps : Nat) (fails : Bool)
  | blocked (ioSteps : Nat) (fails : Bool)
  | running (rem : Nat) (fails : Bool)
  | settled (ok : Bool)
deriving DecidableEq, Repr

def TaskPhase.isRunning : TaskPhase → Bool
  | .running _ _ => true
  | _ => false

def TaskPhase.isSettled : TaskPhase → Bool
  | .settled _ => true
  | _ => false

/-- Scheduler state: one phase per task (indexed by position in the
batch), free semaphore permits, the FIFO ready queue of task indices, and
the semaphore's FIFO waiter queue. -/
structure SchedState where
  phases : List TaskPhase
  permits : Nat
  ready : List Nat
  waiters : List Nat
deriving DecidableEq, Repr

/-- The batch's start state: `asyncio.Semaphore(max_concurrent)` full, all
tasks scheduled in input order, none started. -/
def initState (units : List TransferUnit) (maxConcurrent : Nat) : SchedState :=
  { phases := units.map (fun u => .toAcquire u.ioSteps u.fails)
    permits := maxConcurrent
    ready := List.range units.length
    waiters := [] }

/-- A woken semaphore waiter goes back to re-run its acquire. -/
def wakePhase : TaskPhase → TaskPhase
  | .blocked n f => .toAcquire n f
  | p => p

/-- One scheduler step: run the task at the front of the ready queue up to
its next suspension point.  Acquiring with no free permit parks the task in
the waiter queue; an I/O step re-queues the task; finishing (with a normal
return or an exception — `async with` releases either way) releases the
permit and wakes the first waiter. -/
def step (s : SchedState) : SchedState :=
  match s.ready with
  | [] => s
  | t :: rest =>
    match s.phases.getD t (.settled true) with
    | .toAcquire n f =>
      if 0 < s.permits then
        { s with phases := s.phases.set t (.running n f)
                 permits := s.permits - 1
                 ready := rest ++ [t] }
      else
        { s with phases := s.phases.set t (.blocked n f)
                 ready := rest
                 waiters := s.waiters ++ [t] }
    | .blocked _ _ => { s with ready := rest }
    | .running (m + 1) f =>
      { s with phases := s.phases.set t (.running m f), ready := rest ++ [t] }
    | .running 0 f =>
      match s.waiters with
      | [] =>
        { s with phases := s.phases.set t (.settled (!f))
                 permits := s.permits + 1
                 ready := rest }
      | w :: ws =>
        let ph1 := s.phases.set t (.settled (!f))
        { s with phases := ph1.set w (wakePhase (ph1.getD w (.settled true)))
                 permits := s.permits + 1
                 ready := rest ++ [w]
                 waiters := ws }
    | .settled _ => { s with ready := rest }

/-- `n` scheduler steps. -/
def stepN (n : Nat) (s : SchedState) : SchedState :=
  match n with
  | 0 => s
  | n + 1 => stepN n (step s)

/-- Number of units currently holding a permit, i.e. performing in-flight
I/O. -/
def inFlight (s : SchedState) : Nat :=
  s.phases.countP TaskPhase.isRunning

def allSettled (s : SchedState) : Bool :=
  s.phases.all (fun p => p.isSettled)

/-- Some task has already settled by raising — the moment from which the
`gather` future holds the first failure and the awaiting batch coroutine is
resumed with it. -/
def settledFailed (s : SchedState) : Bool :=
  s.phases.any (fun p => p == .settled false)

lemma isRunning_toAcquire (n : Nat) (f : Bool) :
    (TaskPhase.toAcquire n f).isRunning = false := rfl

lemma isRunning_blocked (n : Nat) (f : Bool) :
    (TaskPhase.blocked n f).isRunning = false := rfl

lemma isRunning_running (m : Nat) (f : Bool) :
    (TaskPhase.running m f).isRunning = true := rfl

lemma isRunning_settled (b : Bool) :
    (TaskPhase.settled b).isRunning = false := rfl

lemma ite_toNat (b : Bool) : (if b = true then 1 else 0) = b.toNat := by
  cases b <;> rfl

lemma countP_set_add {α : Type} (p : α → Bool) (d : α) :
    ∀ (l : List α) (i : Nat) (a : α), i < l.length →
      (l.set i a).countP p + (p (l.getD i d)).toNat =
        l.countP p + (p a).toNat := by
  intro l
  induction l with
  | nil => intro i a h; simp at h
  | cons x xs ih =>
    intro i a h
    cases i with
    | zero =>
      simp only [List.set_cons_zero, List.countP_cons, ite_toNat,
        List.getD_cons_zero]
      omega
    | succ i =>
      simp only [List.set_cons_succ, List.countP_cons, ite_toNat,
        List.getD_cons_succ]
      have := ih i a (by simpa using h)
      omega

lemma getD_lt_length {l : List TaskPhase} {t : Nat} {d : TaskPhase}
    (h : l.getD t d ≠ d) : t < l.length := by
  by_contra hge
  rw [List.getD_eq_default _ _ (by omega)] at h
  exact h rfl

lemma getD_set_ne (l : List TaskPhase) (d : TaskPhase) {i j : Nat}
    (h : i ≠ j) (a : TaskPhase) : (l.set i a).getD j d = l.getD j d := by
  rw [List.getD_eq_getElem?_getD, List.getElem?_set_ne h,
    ← List.getD_eq_getElem?_getD]

lemma getD_set_self (l : List TaskPhase) (d : TaskPhase) {i : Nat}
    (h : i < l.length) (a : TaskPhase) : (l.set i a).getD i d = a := by
  rw [List.getD_eq_getElem?_getD, List.getElem?_set_self (by simpa using h)]
  rfl

lemma isRunning_wakePhase (x : TaskPhase) :
    (wakePhase x).isRunning = x.isRunning := by
  cases x <;> rfl

/-- The key semaphore invariant: free permits plus permit holders is
constant. -/
lemma step_preserves_inv {mc : Nat} {s : SchedState}
    (h : s.permits + inFlight s = mc) :
    (step s).permits + inFlight (step s) = mc := by
  unfold step
  split
  · exact h
  · next t rest hready =>
    split
    · next n f hph =>
      have hlt : t < s.phases.length := getD_lt_length (by rw [hph]; simp)
      have hcnt := countP_set_add TaskPhase.isRunning (.settled true)
        s.phases t (.running n f) hlt
      rw [hph, isRunning_toAcquire, isRunning_running, Bool.toNat_false,
        Bool.toNat_true] at hcnt
      split
      · next hperm =>
        simp only [inFlight] at h ⊢
        omega
      · next hperm =>
        have hcnt2 := countP_set_add TaskPhase.isRunning (.settled true)
          s.phases t (.blocked n f) hlt
        rw [hph, isRunning_toAcquire, isRunning_blocked, Bool.toNat_false]
          at hcnt2
        simp only [inFlight] at h ⊢
        omega
    · exact h
    · next m f hph =>
      have hlt : t < s.phases.length := getD_lt_length (by rw [hph]; simp)
      have hcnt := countP_set_add TaskPhase.isRunning (.settled true)
        s.phases t (.running m f) hlt
      rw [hph] at hcnt
      simp only [isRunning_running, Bool.toNat_true] at hcnt
      simp only [inFlight] at h ⊢
      omega
    · next f hph =>
      have hlt : t < s.phases.length := getD_lt_length (by rw [hph]; simp)
      have hcnt := countP_set_add TaskPhase.isRunning (.settled true)
        s.phases t (.settled (!f)) hlt
      rw [hph, isRunning_running, isRunning_settled, Bool.toNat_false,
        Bool.toNat_true] at hcnt
      split
      · simp only [inFlight] at h ⊢
        omega
      · next w ws hw =>
        simp only [inFlight] at h ⊢
        by_cases hwlt : w < (s.phases.set t (.settled (!f))).length
        · have hcnt2 := countP_set_add TaskPhase.isRunning (.settled true)
            (s.phases.set t (.settled (!f))) w
            (wakePhase ((s.phases.set t (.settled (!f))).getD w (.settled true)))
            hwlt
          rw [isRunning_wakePhase] at hcnt2
          omega
        · rw [List.set_eq_of_length_le (by omega)]
          omega
    · exact h

/-- The invariant holds along the whole run. -/
lemma stepN_inv (mc : Nat) (s : SchedState)
    (h : s.permits + inFlight s = mc) :
    ∀ n, (stepN n s).permits + inFlight (stepN n s) = mc := by
  intro n
  induction n generalizing s with
  | zero => exact h
  | succ n ih => exact ih (step s) (step_preserves_inv h)

/-- C6: starting any batch of `units` with concurrency limit
`maxConcurrent`, at every point of the run at most `maxConcurrent` units
hold a semaphore permit, i.e. have in-flight I/O. -/
theorem c6_concurrency_bound (units : List TransferUnit)
    (maxConcurrent : Nat) (n : Nat) :
    inFlight (stepN n (initState units maxConcurrent)) ≤ maxConcurrent := by
  have h0 : (initState units maxConcurrent).permits +
      inFlight (initState units maxConcurrent) = maxConcurrent := by
    simp only [initState, inFlight, List.countP_map]
    have : ∀ u ∈ units,
        ¬ (TaskPhase.isRunning ∘
          fun u => TaskPhase.toAcquire u.ioSteps u.fails) u = true := by
      intro u hu
      simp [Function.comp, isRunning_toAcquire]
    rw [List.countP_eq_zero.mpr this]
    omega
  have := stepN_inv maxConcurrent _ h0 n
  omega

/-- Counterexample to claim C5 as stated: with two units — unit 0 fails
after one I/O step, unit 1 needs five I/O steps — and `max_concurrent = 5`,
after five scheduler steps unit 0 has settled by raising (so the `gather`
future, created without `return_exceptions=True`, already holds the first
failure and resumes the awaiting batch call), while unit 1 has not settled:
the failure is surfaced before all units have settled. -/
theorem c5_counterexample :
    settledFailed (stepN 5 (initState [⟨1, true⟩, ⟨5, false⟩] 5)) = true ∧
    allSettled (stepN 5 (initState [⟨1, true⟩, ⟨5, false⟩] 5)) = false ∧
    (stepN 5 (initState [⟨1, true⟩, ⟨5, false⟩] 5)).phases.getD 1
      (.settled true) = .running 4 false := by
  refine ⟨by decide, by decide, by decide⟩

/-- C5 (amended): when a unit fails, `asyncio.gather` (called without
`return_exceptions=True`) surfaces that first failure as soon as the
failing task settles — possibly before sibling units have settled — but the
scheduler never cancels a sibling: a task that is mid-I/O (`running` with
steps remaining) is still mid-I/O after any scheduler step, having made at
most its own one step of progress. -/
theorem c5_siblings_drain_uncancelled (s : SchedState) (i m : Nat) (f : Bool)
    (h : s.phases.getD i (.settled true) = .running (m + 1) f) :
    (step s).phases.getD i (.settled true) = .running (m + 1) f ∨
      (step s).phases.getD i (.settled true) = .running m f := by
  unfold step
  split
  · exact Or.inl h
  · next t rest hready =>
    split
    · next n f2 hph =>
      have hne : t ≠ i := by
        intro he
        rw [he, h] at hph
        exact absurd hph (by simp)
      split
      · left
        dsimp only
        rw [getD_set_ne _ _ hne]
        exact h
      · left
        dsimp only
        rw [getD_set_ne _ _ hne]
        exact h
    · exact Or.inl h
    · next k f2 hph =>
      by_cases hti : t = i
      · subst hti
        rw [h] at hph
        injection hph with h1 h2
        obtain rfl : k = m := by omega
        right
        dsimp only
        have hlt : t < s.phases.length := getD_lt_length (by rw [h]; simp)
        rw [getD_set_self _ _ hlt]
        rw [h2]
      · left
        dsimp only
        rw [getD_set_ne _ _ hti]
        exact h
    · next f2 hph =>
      have hne : t ≠ i := by
        intro he
        rw [he, h] at hph
        injection hph with h1 h2
        omega
      split
      · left
        dsimp only
        rw [getD_set_ne _ _ hne]
        exact h
      · next w ws hw =>
        left
        dsimp only
        by_cases hwi : w = i
        · subst hwi
          have hph1 : (s.phases.set t (.settled (!f2))).getD w (.settled true) =
              .running (m + 1) f := by
            rw [getD_set_ne _ _ hne]
            exact h
          rw [getD_set_self _ _ (getD_lt_length (by rw [hph1]; simp))]
          rw [hph1]
          rfl
        · rw [getD_set_ne _ _ hwi, getD_set_ne _ _ hne]
          exact h
    · exact Or.inl h

/-- Witness for the amended C5: in the counterexample run, one step before
the failure settles, sibling unit 1 is mid-I/O and the next scheduler step
leaves it mid-I/O (not cancelled). -/
theorem c5_siblings_drain_uncancelled_witness :
    (stepN 4 (initState [⟨1, true⟩, ⟨5, false⟩] 5)).phases.getD 1
      (.settled true) = .running (3 + 1) false ∧
    ((step (stepN 4 (initState [⟨1, true⟩, ⟨5, false⟩] 5))).phases.getD 1
        (.settled true) = .running (3 + 1) false ∨
      (step (stepN 4 (initState [⟨1, true⟩, ⟨5, false⟩] 5))).phases.getD 1
        (.settled true) = .running 3 false) :=
  ⟨by decide,
    c5_siblings_drain_uncancelled (stepN 4 (initState [⟨1, true⟩, ⟨5, false⟩] 5))
      1 3 false (by decide)⟩

end SharepointEasy
